import Mathlib

/-!
A verification development for the behaviortree-rs behavior-tree engine.

The definitions below are a shallow embedding of the engine's core:

* the node status model and the per-node tick protocol,
* the `ReactiveSequence` and `ReactiveFallback` composites
  (from `bt_cpp_rust/src/nodes/control/reactive_sequence.rs` and
  `reactive_fallback.rs`),
* the tree tick loop and the `NodeIter` pre-order visitor
  (from `behaviortree-rs/src/tree.rs`),
* the `Condition` node's expression handling
  (from `behaviortree-rs/src/nodes/action/condition.rs`),
* port binding (`Factory::add_ports_to_node`), `SubTree` instantiation
  (`Factory::build_child`) and the XML registration / main-tree selection
  logic (`Factory::register_bt_from_text`, `Factory::create_*_tree_from_text`).

Children of a composite are external collaborators: a child is modelled by
the list of statuses its successive `execute_tick` calls return, plus the
status it currently stores.  Panics (`unwrap` / `expect` in the source) are
modelled by `Option` with `none` for the panic.
-/

namespace BtRs

/-- `NodeStatus`, from the spec's data model (the `basic_types` module is not
part of the analysed sources; the variant list is fixed by the spec, §3.1). -/
inductive NodeStatus where
  | idle
  | running
  | success
  | failure
  | skipped
deriving DecidableEq, Repr

/-- Modelled from the spec: `is_completed()` is status ∈ Success, Failure
(§3.1 of the spec; `basic_types.rs` is not among the sources). -/
def NodeStatus.is_completed : NodeStatus → Bool
  | .success => true
  | .failure => true
  | _ => false

/-- The node-error taxonomy (spec §7, and the constructors used by
`reactive_sequence.rs`, `reactive_fallback.rs`, `condition.rs`). -/
inductive NodeError where
  | PortError (name : String)
  | PortValueParseError (name ty : String)
  | BlackboardError (msg : String)
  | StatusError (path status : String)
  | NodeStructureError (msg : String)
  | ConditionExpressionError (msg : String)
deriving DecidableEq, Repr

/-- A child of a composite, seen as a black box: `script` lists the statuses
its successive `execute_tick` calls will return, `status` is the status it
currently stores.  (User nodes are external collaborators; only the statuses
they return matter to the composites' algorithms.) -/
structure Child where
  script : List NodeStatus
  status : NodeStatus
deriving DecidableEq, Repr

/-- `execute_tick` on a child: returns the next scripted status and stores it.
With an exhausted script the child keeps returning `Idle` (its stored status
is then irrelevant to every claim below, so it is left unchanged). -/
def Child.execute_tick (c : Child) : NodeStatus × Child :=
  match c.script with
  | [] => (.idle, c)
  | s :: rest => (s, { script := rest, status := s })

/-- Modelled from the spec: halting a node drives its status to `Idle`
(§4.2/§5: "After `halt` on any subtree, every node's status in that subtree
is `Idle`"; the `halt_child` helper lives outside the analysed sources). -/
def Child.halt (c : Child) : Child :=
  { c with status := .idle }

/-- Modelled from the spec: `reset_children` halts every child, leaving all
of them `Idle` (the helper lives outside the analysed sources). -/
def reset_children (cs : List Child) : List Child :=
  cs.map Child.halt

instance {ε α : Type} [DecidableEq ε] [DecidableEq α] :
    DecidableEq (Except ε α) := fun x y =>
  match x, y with
  | .ok a, .ok b =>
    if h : a = b then .isTrue (by rw [h]) else .isFalse (by simp [h])
  | .error a, .error b =>
    if h : a = b then .isTrue (by rw [h]) else .isFalse (by simp [h])
  | .ok _, .error _ => .isFalse (by simp)
  | .error _, .ok _ => .isFalse (by simp)

/-- Outcome of one `ReactiveSequenceNode::tick`: the returned result, the
children afterwards, and the node's `running_child` field afterwards. -/
structure RSOut where
  result : Except NodeError NodeStatus
  children : List Child
  running_child : Int
deriving DecidableEq, Repr

/-- The child loop of `ReactiveSequenceNode::tick`
(`bt_cpp_rust/src/nodes/control/reactive_sequence.rs`, lines 26-71).
`acc` holds the already-ticked children (so `acc.length` is the source's
`counter`), `rest` the children still to tick.  (The composite's own
`self.status = Running` assignment carries no information the claims
mention and is left out.) -/
def rsGo (running_child : Int) (acc rest : List Child) (all_skipped : Bool) :
    RSOut :=
  match rest with
  | [] =>
    -- end of the loop: `self.reset_children()` then Skipped or Success
    { result := .ok (if all_skipped then .skipped else .success)
      children := reset_children acc
      running_child := running_child }
  | c :: rest =>
    let p := c.execute_tick
    let all_skipped := all_skipped && (p.1 == .skipped)
    match p.1 with
    | .running =>
      -- halt the children with index 0..counter, then the running_child check
      let halted := acc.map Child.halt ++ p.2 :: rest
      if running_child == -1 then
        { result := .ok .running, children := halted,
          running_child := (acc.length : Int) }
      else if running_child != (acc.length : Int) then
        { result := .error (.NodeStructureError
            "[ReactiveSequence]: Only a single child can return Running.")
          children := halted, running_child := running_child }
      else
        { result := .ok .running, children := halted,
          running_child := running_child }
    | .failure =>
      { result := .ok .failure
        children := reset_children (acc ++ p.2 :: rest)
        running_child := running_child }
    | .success => rsGo running_child (acc ++ [p.2]) rest all_skipped
    | .skipped => rsGo running_child (acc ++ [p.2.halt]) rest all_skipped
    | .idle =>
      { result := .error (.StatusError "path" "Idle")
        children := acc ++ p.2 :: rest
        running_child := running_child }

/-- One tick of a `ReactiveSequence` over its children, given the node's
current `running_child` field (initialised to `-1` at construction and never
reset by the source). -/
def reactive_sequence_tick (children : List Child) (running_child : Int) :
    RSOut :=
  rsGo running_child [] children true

/-- Outcome of one `ReactiveFallbackNode::tick`. -/
structure RFOut where
  result : Except NodeError NodeStatus
  children : List Child
deriving DecidableEq, Repr

/-- The child loop of `ReactiveFallbackNode::tick`
(`bt_cpp_rust/src/nodes/control/reactive_fallback.rs`, lines 24-65). -/
def rfGo (acc rest : List Child) (all_skipped : Bool) : RFOut :=
  match rest with
  | [] =>
    { result := .ok (if all_skipped then .skipped else .failure)
      children := reset_children acc }
  | c :: rest =>
    let p := c.execute_tick
    let all_skipped := all_skipped && (p.1 == .skipped)
    match p.1 with
    | .running =>
      -- halt the children with index 0..index
      { result := .ok .running, children := acc.map Child.halt ++ p.2 :: rest }
    | .failure => rfGo (acc ++ [p.2]) rest all_skipped
    | .success =>
      { result := .ok .success, children := reset_children (acc ++ p.2 :: rest) }
    | .skipped => rfGo (acc ++ [p.2.halt]) rest all_skipped
    | .idle =>
      { result := .error (.StatusError "Name here" "Idle")
        children := acc ++ p.2 :: rest }

/-- One tick of a `ReactiveFallback` over its children. -/
def reactive_fallback_tick (children : List Child) : RFOut :=
  rfGo [] children true

/-- `AsyncTree::tick_root` with `TickOption::WhileRunning`
(`behaviortree-rs/src/tree.rs`, lines 87-103), i.e. the body of
`tick_while_running`.  The root node of the tree is the black box being
ticked.  The loop keeps ticking while the local `status` is `Idle` or
`Running`; after each tick, if `status.is_completed()` the root's status is
reset (to `Idle`).  Returns the final local `status` together with the root
afterwards; `none` models the case where the root's script runs out, after
which `execute_tick` returns `Idle` forever and the source loop never
terminates. -/
def tick_root_while_running (root : Child) : Option (NodeStatus × Child) :=
  match hs : root.script with
  | [] => none
  | _ :: _ =>
    let p := root.execute_tick
    let root1 := if p.1.is_completed then { p.2 with status := .idle } else p.2
    if p.1 = .idle ∨ p.1 = .running then
      tick_root_while_running root1
    else
      some (p.1, root1)
termination_by root.script.length
decreasing_by
  simp only [Child.execute_tick, hs]
  split <;> simp [hs]

/-- `c` would return status `s` if `execute_tick` were called on it now. -/
def Child.ticksTo (c : Child) (s : NodeStatus) : Prop :=
  c.execute_tick.1 = s

instance (c : Child) (s : NodeStatus) : Decidable (c.ticksTo s) := by
  unfold Child.ticksTo; infer_instance

/-! ### The Condition node (`behaviortree-rs/src/nodes/action/condition.rs`)

The expression sublanguage (the `evalexpr` crate) is an external collaborator
(spec §1: "an opaque arithmetic/boolean evaluator is assumed"), so the
embedding is parameterised by the evaluator: an expression type `E`, the
compiler `build` (`build_operator_tree`; `none` = compile error), the
variable identifiers of a compiled expression (`iter_variable_identifiers`)
and the boolean evaluation (`eval_boolean_with_context`).  Blackboard reads
are likewise a parameter `bbRead name ty` combining the four typed getters
(`get::<i64>` etc.; `none` = the read fails).  The outer `Option` of each
function models panics: `none` is a panic (`expect` / `unreachable!` in the
source), never a returned error. -/

/-- `str::split_once(':')`: split at the first colon. -/
def split_once_colon (s : String) : Option (String × String) :=
  match s.splitOn ":" with
  | [] => none
  | [_] => none
  | p :: rest => some (p, String.intercalate ":" rest)

/-- The noun used in the `BlackboardError` message of
`ConditionNode::run_condition` for each variable type tag. -/
def type_noun : String → String
  | "int" => "an integer"
  | "float" => "a float"
  | "str" => "a string"
  | "bool" => "a bool"
  | _ => ""

/-- The variable loop of `ConditionNode::run_condition` (condition.rs,
lines 39-56): populate the evaluation context from blackboard entries
referenced in the expression.  A variable of the form `\x7bname:ty\x7d` is
read from the blackboard as `ty`; a read failure is a `BlackboardError`; a
missing colon or an unknown type tag panics (`expect` / `unreachable!`).
(`context.set_value` cannot fail on a plain variable name, so storing into
the context is modelled as total.) -/
def build_context {V : Type} (bbRead : String → String → Option V) :
    List String → List (String × V) → Option (Except NodeError (List (String × V)))
  | [], ctx => some (.ok ctx)
  | key :: rest, ctx =>
    if key.startsWith "\x7b" && key.endsWith "\x7d" then
      let inner := (key.drop 1).dropRight 1
      match split_once_colon inner with
      | none => none
      | some (name, var_type) =>
        if var_type = "int" ∨ var_type = "float" ∨ var_type = "str" ∨
            var_type = "bool" then
          match bbRead name var_type with
          | none => some (.error (.BlackboardError
              ("Couldn't load blackboard key " ++ name ++ " as " ++
                type_noun var_type)))
          | some v => build_context bbRead rest ((key, v) :: ctx)
        else
          none
    else
      build_context bbRead rest ctx

/-- `ConditionNode::run_condition` (condition.rs, lines 29-61), including the
lazy compilation of the `expr` input port (`compile_condition`, lines 63-65).
`cached` is the node's `expr` field, `expr_port` the raw string of the `expr`
input port.  `none` is a panic: a missing `expr` port (`expect` on
`input_ports.get`) or a failed compilation (`expect` in
`compile_condition`). -/
def run_condition {E V : Type} (build : String → Option E)
    (varIds : E → List String)
    (evalBool : E → List (String × V) → Except String Bool)
    (bbRead : String → String → Option V)
    (cached : Option E) (expr_port : Option String) :
    Option (Except NodeError Bool) :=
  let eOpt : Option E :=
    match cached with
    | some e => some e
    | none =>
      match expr_port with
      | none => none
      | some s => build s
  match eOpt with
  | none => none
  | some e =>
    match build_context bbRead (varIds e) [] with
    | none => none
    | some (.error err) => some (.error err)
    | some (.ok ctx) =>
      match evalBool e ctx with
      | .error msg => some (.error (.ConditionExpressionError msg))
      | .ok b => some (.ok b)

/-- `ConditionNode::tick` (condition.rs, lines 21-27): `Success` iff the
boolean result is true, else `Failure`; errors from `run_condition`
propagate to the caller, panics stay panics. -/
def condition_tick {E V : Type} (build : String → Option E)
    (varIds : E → List String)
    (evalBool : E → List (String × V) → Except String Bool)
    (bbRead : String → String → Option V)
    (cached : Option E) (expr_port : Option String) :
    Option (Except NodeError NodeStatus) :=
  match run_condition build varIds evalBool bbRead cached expr_port with
  | none => none
  | some (.error err) => some (.error err)
  | some (.ok b) => some (.ok (if b then .success else .failure))

/-! ### Helper lemmas for the reactive composites -/

/-- The state a passed-over child is left in by the reactive loops: a child
that returned `Skipped` is halted on the spot, any other passed-over child
keeps the status it just returned. -/
def stepUpd (c : Child) : Child :=
  if c.execute_tick.1 = .skipped then c.execute_tick.2.halt
  else c.execute_tick.2

/-- `c` ticks to `Skipped`, as a boolean. -/
def skippedB (c : Child) : Bool :=
  c.execute_tick.1 == .skipped

lemma rsGo_append (pre : List Child)
    (hpre : ∀ x ∈ pre, x.ticksTo .success ∨ x.ticksTo .skipped) :
    ∀ acc sk rc rest,
      rsGo rc acc (pre ++ rest) sk =
        rsGo rc (acc ++ pre.map stepUpd) rest (sk && pre.all skippedB) := by
  induction pre with
  | nil => simp
  | cons c pre ih =>
    intro acc sk rc rest
    have hc := hpre c (by simp)
    have hpre' : ∀ x ∈ pre, x.ticksTo .success ∨ x.ticksTo .skipped :=
      fun x hx => hpre x (by simp [hx])
    rcases hc with hc | hc
    · rw [List.cons_append]
      rw [show rsGo rc acc (c :: (pre ++ rest)) sk =
          rsGo rc (acc ++ [c.execute_tick.2]) (pre ++ rest)
            (sk && (c.execute_tick.1 == .skipped)) by
        simp only [rsGo]; rw [Child.ticksTo] at hc; rw [hc]]
      rw [ih hpre']
      rw [Child.ticksTo] at hc
      simp [stepUpd, skippedB, hc, Bool.and_assoc]
    · rw [List.cons_append]
      rw [show rsGo rc acc (c :: (pre ++ rest)) sk =
          rsGo rc (acc ++ [c.execute_tick.2.halt]) (pre ++ rest)
            (sk && (c.execute_tick.1 == .skipped)) by
        simp only [rsGo]; rw [Child.ticksTo] at hc; rw [hc]]
      rw [ih hpre']
      rw [Child.ticksTo] at hc
      simp [stepUpd, skippedB, hc, Bool.and_assoc]

/-- C1 (amended): for a ReactiveSequence, when the child at index `i` (after
a prefix of children returning Success or Skipped) returns Running during a
tick, the siblings with index LESS than `i` are halted, the siblings with
index greater than `i` are left untouched, and — provided the stored
running-child index is unset (-1) or equals `i` — the node returns
Running. -/
theorem reactive_sequence_running_halts_smaller
    (pre post : List Child) (c : Child) (rc : Int)
    (hpre : ∀ x ∈ pre, x.ticksTo .success ∨ x.ticksTo .skipped)
    (hc : c.ticksTo .running)
    (hrc : rc = -1 ∨ rc = (pre.length : Int)) :
    (reactive_sequence_tick (pre ++ c :: post) rc).result = .ok .running ∧
    (∀ x ∈ (reactive_sequence_tick (pre ++ c :: post) rc).children.take
        pre.length, x.status = .idle) ∧
    (reactive_sequence_tick (pre ++ c :: post) rc).children.drop
        (pre.length + 1) = post := by
  rw [Child.ticksTo] at hc
  have hmain : reactive_sequence_tick (pre ++ c :: post) rc =
      { result := .ok .running,
        children := (pre.map stepUpd).map Child.halt ++ c.execute_tick.2 :: post,
        running_child := if rc = -1 then (pre.length : Int) else rc } := by
    rw [reactive_sequence_tick, rsGo_append pre hpre]
    simp only [rsGo, hc, List.nil_append]
    rcases hrc with hrc | hrc
    · simp [hrc]
    · have : ¬ (rc == -1) = true := by
        simp [hrc]
      simp only [this, Bool.false_eq_true, if_false, if_neg]
      simp [hrc]
  refine ⟨by rw [hmain], ?_, ?_⟩
  · intro x hx
    rw [hmain] at hx
    simp only at hx
    have hlen : ((pre.map stepUpd).map Child.halt).length = pre.length := by
      simp
    rw [← hlen, List.take_left] at hx
    simp only [List.mem_map] at hx
    obtain ⟨y, _, hy⟩ := hx
    rw [← hy]
    rfl
  · rw [hmain]
    simp only
    have : (pre.map stepUpd).map Child.halt ++ c.execute_tick.2 :: post =
        ((pre.map stepUpd).map Child.halt ++ [c.execute_tick.2]) ++ post := by
      simp
    rw [this]
    have hlen : ((pre.map stepUpd).map Child.halt ++
        [c.execute_tick.2]).length = pre.length + 1 := by
      simp
    rw [← hlen, List.drop_left]

/-- C1 (counterexample to the claim as stated): in a ReactiveSequence with
three children where child 1 returns Running (child 2 being Running from an
earlier cycle), the tick returns Running but child 2 — the sibling with
index greater than the running index — is NOT halted: its status stays
Running instead of Idle.  (The code halts the siblings with smaller index:
child 0 ends up Idle.) -/
theorem reactive_sequence_greater_sibling_not_halted_cex :
    (reactive_sequence_tick
        [⟨[.success], .idle⟩, ⟨[.running], .idle⟩, ⟨[], .running⟩]
        (-1)).result = .ok .running ∧
    ((reactive_sequence_tick
        [⟨[.success], .idle⟩, ⟨[.running], .idle⟩, ⟨[], .running⟩]
        (-1)).children.get ⟨2, by decide⟩).status = .running ∧
    NodeStatus.running ≠ NodeStatus.idle := by
  decide

/-- Witness for C1's theorem at a concrete ReactiveSequence: one Success
child followed by a Running child, with `running_child = -1`. -/
theorem reactive_sequence_running_halts_smaller_witness :
    (reactive_sequence_tick
        [⟨[.success], .idle⟩, ⟨[.running], .idle⟩] (-1)).result =
      .ok .running ∧
    (∀ x ∈ (reactive_sequence_tick
        [⟨[.success], .idle⟩, ⟨[.running], .idle⟩] (-1)).children.take 1,
      x.status = .idle) ∧
    (reactive_sequence_tick
        [⟨[.success], .idle⟩, ⟨[.running], .idle⟩] (-1)).children.drop 2 =
      [] := by
  exact reactive_sequence_running_halts_smaller
    [⟨[.success], .idle⟩] [] ⟨[.running], .idle⟩ (-1)
    (by decide) (by decide) (by decide)

/-- C4: evaluation of the code on the failing input.  A two-child
ReactiveSequence: in run 1 child 1 returns Running (`running_child` becomes
1), then child 0 fails (all children reset, the run ends with Failure).  In
the next, fresh run child 0 returns Running — exactly one child is Running —
yet the tick returns `NodeStructureError`, because `running_child` still
holds the stale index 1: the source never resets it (BT.CPP, which this node
ports, clears it when a tick starts from Idle). -/
def staleTick1 : RSOut :=
  reactive_sequence_tick
    [⟨[.success, .failure, .running], .idle⟩, ⟨[.running], .idle⟩] (-1)

def staleTick2 : RSOut :=
  reactive_sequence_tick staleTick1.children staleTick1.running_child

def staleTick3 : RSOut :=
  reactive_sequence_tick staleTick2.children staleTick2.running_child

theorem reactive_sequence_stale_running_child_error :
    staleTick1.result = .ok .running ∧
    staleTick2.result = .ok .failure ∧
    staleTick3.result = .error (.NodeStructureError
        "[ReactiveSequence]: Only a single child can return Running.") ∧
    (staleTick3.children.filter (fun c => c.status == .running)).length =
      1 := by
  decide

lemma rfGo_append (pre : List Child)
    (hpre : ∀ x ∈ pre, x.ticksTo .failure ∨ x.ticksTo .skipped) :
    ∀ acc sk rest,
      rfGo acc (pre ++ rest) sk =
        rfGo (acc ++ pre.map stepUpd) rest (sk && pre.all skippedB) := by
  induction pre with
  | nil => simp
  | cons c pre ih =>
    intro acc sk rest
    have hc := hpre c (by simp)
    have hpre' : ∀ x ∈ pre, x.ticksTo .failure ∨ x.ticksTo .skipped :=
      fun x hx => hpre x (by simp [hx])
    rcases hc with hc | hc
    · rw [List.cons_append]
      rw [show rfGo acc (c :: (pre ++ rest)) sk =
          rfGo (acc ++ [c.execute_tick.2]) (pre ++ rest)
            (sk && (c.execute_tick.1 == .skipped)) by
        simp only [rfGo]; rw [Child.ticksTo] at hc; rw [hc]]
      rw [ih hpre']
      rw [Child.ticksTo] at hc
      simp [stepUpd, skippedB, hc, Bool.and_assoc]
    · rw [List.cons_append]
      rw [show rfGo acc (c :: (pre ++ rest)) sk =
          rfGo (acc ++ [c.execute_tick.2.halt]) (pre ++ rest)
            (sk && (c.execute_tick.1 == .skipped)) by
        simp only [rfGo]; rw [Child.ticksTo] at hc; rw [hc]]
      rw [ih hpre']
      rw [Child.ticksTo] at hc
      simp [stepUpd, skippedB, hc, Bool.and_assoc]

/-- C3: ReactiveFallback semantics.  Iterating from index 0 each tick:
a child returning Running has all smaller-index siblings halted and the node
returns Running (greater-index siblings untouched); a child returning
Success causes all children to be reset and the node returns Success; a
Failure child is passed over; a Skipped child is halted; if every child
returned Skipped the node returns Skipped, otherwise (all non-Skipped
children failed) it returns Failure. -/
theorem reactive_fallback_semantics :
    (∀ pre post (c : Child),
      (∀ x ∈ pre, x.ticksTo .failure ∨ x.ticksTo .skipped) →
      c.ticksTo .running →
      (reactive_fallback_tick (pre ++ c :: post)).result = .ok .running ∧
      (∀ x ∈ (reactive_fallback_tick (pre ++ c :: post)).children.take
          pre.length, x.status = .idle) ∧
      (reactive_fallback_tick (pre ++ c :: post)).children.drop
          (pre.length + 1) = post) ∧
    (∀ pre post (c : Child),
      (∀ x ∈ pre, x.ticksTo .failure ∨ x.ticksTo .skipped) →
      c.ticksTo .success →
      (reactive_fallback_tick (pre ++ c :: post)).result = .ok .success ∧
      ∀ x ∈ (reactive_fallback_tick (pre ++ c :: post)).children,
        x.status = .idle) ∧
    (∀ cs : List Child,
      (∀ x ∈ cs, x.ticksTo .failure ∨ x.ticksTo .skipped) →
      ((∃ x ∈ cs, x.ticksTo .failure) →
        (reactive_fallback_tick cs).result = .ok .failure) ∧
      ((∀ x ∈ cs, x.ticksTo .skipped) →
        (reactive_fallback_tick cs).result = .ok .skipped) ∧
      ∀ x ∈ (reactive_fallback_tick cs).children, x.status = .idle) := by
  refine ⟨?_, ?_, ?_⟩
  · intro pre post c hpre hc
    rw [Child.ticksTo] at hc
    have hmain : reactive_fallback_tick (pre ++ c :: post) =
        { result := .ok .running,
          children := (pre.map stepUpd).map Child.halt ++
            c.execute_tick.2 :: post } := by
      rw [reactive_fallback_tick, rfGo_append pre hpre]
      simp only [rfGo, hc, List.nil_append]
    refine ⟨by rw [hmain], ?_, ?_⟩
    · intro x hx
      rw [hmain] at hx
      simp only at hx
      have hlen : ((pre.map stepUpd).map Child.halt).length = pre.length := by
        simp
      rw [← hlen, List.take_left] at hx
      simp only [List.mem_map] at hx
      obtain ⟨y, _, hy⟩ := hx
      rw [← hy]
      rfl
    · rw [hmain]
      simp only
      have : (pre.map stepUpd).map Child.halt ++ c.execute_tick.2 :: post =
          ((pre.map stepUpd).map Child.halt ++ [c.execute_tick.2]) ++ post := by
        simp
      rw [this]
      have hlen : ((pre.map stepUpd).map Child.halt ++
          [c.execute_tick.2]).length = pre.length + 1 := by
        simp
      rw [← hlen, List.drop_left]
  · intro pre post c hpre hc
    rw [Child.ticksTo] at hc
    have hmain : reactive_fallback_tick (pre ++ c :: post) =
        { result := .ok .success,
          children := reset_children
            (pre.map stepUpd ++ c.execute_tick.2 :: post) } := by
      rw [reactive_fallback_tick, rfGo_append pre hpre]
      simp only [rfGo, hc, List.nil_append]
    refine ⟨by rw [hmain], ?_⟩
    intro x hx
    rw [hmain] at hx
    simp only [reset_children, List.mem_map] at hx
    obtain ⟨y, _, hy⟩ := hx
    rw [← hy]
    rfl
  · intro cs hcs
    have hmain : reactive_fallback_tick cs =
        { result := .ok (if cs.all skippedB then .skipped else .failure),
          children := reset_children (cs.map stepUpd) } := by
      rw [reactive_fallback_tick,
        show cs = cs ++ [] by simp, rfGo_append cs hcs]
      simp [rfGo]
    refine ⟨?_, ?_, ?_⟩
    · intro hex
      obtain ⟨x, hx, hfail⟩ := hex
      rw [Child.ticksTo] at hfail
      have hall : cs.all skippedB = false := by
        rw [List.all_eq_false]
        exact ⟨x, hx, by simp [skippedB, hfail]⟩
      rw [hmain]
      simp [hall]
    · intro hall
      have hall' : cs.all skippedB = true := by
        rw [List.all_eq_true]
        intro x hx
        have := hall x hx
        rw [Child.ticksTo] at this
        simp [skippedB, this]
      rw [hmain]
      simp [hall']
    · intro x hx
      rw [hmain] at hx
      simp only [reset_children, List.mem_map] at hx
      obtain ⟨y, _, hy⟩ := hx
      rw [← hy]
      rfl

/-- Witness for C3 at concrete ReactiveFallbacks: a Failure child followed by
a Running child (prior sibling halted, node Running); all-Skipped children
(node Skipped). -/
theorem reactive_fallback_semantics_witness :
    ((reactive_fallback_tick [⟨[.failure], .idle⟩, ⟨[.running], .idle⟩]).result
      = .ok .running ∧
     (∀ x ∈ (reactive_fallback_tick
        [⟨[.failure], .idle⟩, ⟨[.running], .idle⟩]).children.take 1,
        x.status = .idle) ∧
     (reactive_fallback_tick
        [⟨[.failure], .idle⟩, ⟨[.running], .idle⟩]).children.drop 2 = []) ∧
    ((reactive_fallback_tick [⟨[.skipped], .idle⟩, ⟨[.skipped], .idle⟩]).result
      = .ok .skipped) := by
  constructor
  · exact reactive_fallback_semantics.1 [⟨[.failure], .idle⟩] []
      ⟨[.running], .idle⟩ (by decide) (by decide)
  · exact ((reactive_fallback_semantics.2.2
      [⟨[.skipped], .idle⟩, ⟨[.skipped], .idle⟩]) (by decide)).2.1 (by decide)

/-- C2 (amended): `tick_while_running` repeatedly ticks the root while it
returns Running (or Idle); the first Success, Failure or Skipped status is
returned.  The root's status is reset to Idle only when the returned status
`is_completed()`, i.e. for Success and Failure — NOT for Skipped: a root
that returns Skipped is left with status Skipped. -/
theorem tick_while_running_resets_only_completed
    (pre : List NodeStatus) (st status0 : NodeStatus)
    (hpre : ∀ s ∈ pre, s = .running ∨ s = .idle)
    (hst1 : st ≠ .running) (hst2 : st ≠ .idle) :
    tick_root_while_running ⟨pre ++ [st], status0⟩ =
      some (st, ⟨[], if st.is_completed then .idle else st⟩) := by
  induction pre generalizing status0 with
  | nil =>
    rw [tick_root_while_running]
    simp only [List.nil_append, Child.execute_tick]
    rw [if_neg (by simp [hst1, hst2])]
    cases h : st.is_completed <;> simp [h]
  | cons s pre ih =>
    have hs := hpre s (by simp)
    have hpre' : ∀ x ∈ pre, x = .running ∨ x = .idle :=
      fun x hx => hpre x (by simp [hx])
    rw [tick_root_while_running]
    simp only [List.cons_append, Child.execute_tick]
    rcases hs with hs | hs
    · subst hs
      rw [show NodeStatus.running.is_completed = false from rfl]
      rw [if_pos (Or.inr rfl), if_neg (by simp)]
      exact ih _ hpre'
    · subst hs
      rw [show NodeStatus.idle.is_completed = false from rfl]
      rw [if_pos (Or.inl rfl), if_neg (by simp)]
      exact ih _ hpre'

/-- C2 (counterexample to the claim as stated): a root whose single tick
returns Skipped.  `tick_while_running` returns Skipped, but the root's
status is left at Skipped — it is not reset to Idle. -/
theorem tick_while_running_skipped_not_reset_cex :
    tick_root_while_running ⟨[.skipped], .idle⟩ =
      some (.skipped, ⟨[], .skipped⟩) ∧
    NodeStatus.skipped ≠ NodeStatus.idle := by
  constructor
  · rw [tick_root_while_running]
    simp [Child.execute_tick, NodeStatus.is_completed]
  · decide

/-- Witness for C2's theorem: a root that runs once and then succeeds; the
returned status is Success and the root is reset to Idle. -/
theorem tick_while_running_resets_only_completed_witness :
    tick_root_while_running ⟨[.running, .success], .idle⟩ =
      some (.success, ⟨[], .idle⟩) := by
  have h := tick_while_running_resets_only_completed [.running] .success .idle
    (by decide) (by decide) (by decide)
  simpa using h

/-- Modelled from the spec: an instance of the opaque expression compiler,
on which compilation of the malformed expression `1 +` fails (every other
string compiles). -/
def failing_build : String → Option Unit :=
  fun s => if s = "1 +" then none else some ()

/-- C5 (amended): a failure to evaluate the compiled expression is reported
to the caller of the tick as `ConditionExpressionError`; a failure to
compile the `expr` input-port expression, however, panics (an `expect` in
`compile_condition`) and is never reported as an error value. -/
theorem condition_error_reporting :
    (∀ (E V : Type) (build : String → Option E) (varIds : E → List String)
        (evalBool : E → List (String × V) → Except String Bool)
        (bbRead : String → String → Option V) (s : String),
      build s = none →
      condition_tick build varIds evalBool bbRead none (some s) = none) ∧
    (∀ (E V : Type) (build : String → Option E) (varIds : E → List String)
        (evalBool : E → List (String × V) → Except String Bool)
        (bbRead : String → String → Option V) (s : String) (e : E)
        (ctx : List (String × V)) (msg : String),
      build s = some e →
      build_context bbRead (varIds e) [] = some (.ok ctx) →
      evalBool e ctx = .error msg →
      condition_tick build varIds evalBool bbRead none (some s) =
        some (.error (.ConditionExpressionError msg))) := by
  constructor
  · intro E V build varIds evalBool bbRead s hb
    simp [condition_tick, run_condition, hb]
  · intro E V build varIds evalBool bbRead s e ctx msg hb hctx heval
    simp [condition_tick, run_condition, hb, hctx, heval]

/-- C5 (counterexample to the claim as stated): ticking a Condition node
whose `expr` port holds the uncompilable expression `1 +` panics — the tick
does not return an error value, in particular no
`ConditionExpressionError`. -/
theorem condition_compile_failure_panics_cex :
    condition_tick failing_build (fun _ => []) (fun _ _ => .ok true)
        (fun _ _ => (none : Option Unit)) none (some "1 +") = none ∧
    ∀ msg, condition_tick failing_build (fun _ => []) (fun _ _ => .ok true)
        (fun _ _ => (none : Option Unit)) none (some "1 +") ≠
      some (.error (.ConditionExpressionError msg)) := by
  refine ⟨rfl, fun msg => by simp [condition_tick, run_condition,
    failing_build]⟩

/-- Witness for C5's theorem: the compile-failure half at `1 +` with the
`failing_build` compiler, and the eval-failure half with an evaluator whose
evaluation fails with message `eval`. -/
theorem condition_error_reporting_witness :
    condition_tick failing_build (fun _ => []) (fun _ _ => .ok true)
        (fun _ _ => (none : Option Unit)) none (some "1 +") = none ∧
    condition_tick (fun _ => some ()) (fun _ => [])
        (fun _ (_ : List (String × Unit)) => .error "eval")
        (fun _ _ => none) none (some "true") =
      some (.error (.ConditionExpressionError "eval")) := by
  constructor
  · exact condition_error_reporting.1 Unit Unit failing_build (fun _ => [])
      (fun _ _ => .ok true) (fun _ _ => none) "1 +" (by decide)
  · exact condition_error_reporting.2 Unit Unit (fun _ => some ())
      (fun _ => []) (fun _ _ => .error "eval") (fun _ _ => none) "true" ()
      [] "eval" rfl rfl rfl

/-! ### Port binding (`Factory::add_ports_to_node`, tree.rs lines 430-480) -/

/-- The parser error taxonomy of `behaviortree-rs/src/tree.rs` (lines 22-55);
wrapped foreign errors carry their message as a string. -/
inductive ParseError where
  | InvalidPort (port_name node_name : String) (port_list : List String)
  | AttrError (msg : String)
  | XMLError (msg : String)
  | MissingRoot
  | ExpectedRoot (name : String)
  | UnexpectedEof
  | Utf8Error (msg : String)
  | UnknownNode (name : String)
  | InternalError (msg : String)
  | MissingAttribute (msg : String)
  | UnknownTree (name : String)
  | NodeTypeMismatch (name : String)
  | NoMainTree
  | ParseStringError (msg : String)
  | ViolateNodeConstraint (msg : String)
deriving DecidableEq, Repr

/-- Port direction (spec §3.3). -/
inductive PortDirection where
  | input
  | output
  | inout
deriving DecidableEq, Repr

/-- A port descriptor: direction and optional default-value string
(spec §3.3; the type descriptor is documentation only and is omitted). -/
structure PortInfo where
  direction : PortDirection
  default_value : Option String
deriving DecidableEq, Repr

/-- The port maps of a `NodeConfig` (spec §3.5): port-name → raw string
value, one map per direction. -/
structure NodeConfig where
  input_ports : List (String × String)
  output_ports : List (String × String)
deriving DecidableEq, Repr

/-- Modelled from the spec (§3.5 `add_port(direction, name, raw)`;
`NodeConfig` lives outside the provided sources): record the raw string
under the port name in the map(s) selected by the direction. -/
def NodeConfig.add_port (cfg : NodeConfig) (d : PortDirection)
    (name value : String) : NodeConfig :=
  match d with
  | .input => { cfg with input_ports := (name, value) :: cfg.input_ports }
  | .output => { cfg with output_ports := (name, value) :: cfg.output_ports }
  | .inout =>
    { input_ports := (name, value) :: cfg.input_ports,
      output_ports := (name, value) :: cfg.output_ports }

/-- Modelled from the spec (§3.5 `has_port(direction, name)`): the port name
is present in the map(s) selected by the direction. -/
def NodeConfig.has_port (cfg : NodeConfig) (d : PortDirection)
    (name : String) : Bool :=
  match d with
  | .input => (cfg.input_ports.lookup name).isSome
  | .output => (cfg.output_ports.lookup name).isSome
  | .inout => (cfg.input_ports.lookup name).isSome &&
      (cfg.output_ports.lookup name).isSome

/-- The step of the attribute loop of `add_ports_to_node` (tree.rs, lines
457-461): add each supplied attribute under its manifest direction. -/
def attrStep (manifest_ports : List (String × PortInfo)) (cfg : NodeConfig)
    (p : String × String) : NodeConfig :=
  match manifest_ports.lookup p.1 with
  | some port => cfg.add_port port.direction p.1 p.2
  | none => cfg

/-- The step of the defaults loop of `add_ports_to_node` (tree.rs, lines
464-477): inject the default of a non-`Output` port that was not supplied,
as an `Input` entry. -/
def defaultStep (cfg : NodeConfig) (q : String × PortInfo) : NodeConfig :=
  if q.2.direction ≠ .output ∧ cfg.has_port q.2.direction q.1 = false ∧
      q.2.default_value.isSome = true then
    cfg.add_port .input q.1 (q.2.default_value.getD "")
  else
    cfg

/-- `Factory::add_ports_to_node` (tree.rs, lines 430-480): reject any
attribute whose name is not in the manifest's port list (`InvalidPort`),
else add the supplied ports to the config, then inject defaults for
unsupplied non-`Output` ports that have one. -/
def add_ports_to_node (cfg : NodeConfig) (node_name : String)
    (attributes : List (String × String))
    (manifest_ports : List (String × PortInfo)) : Except ParseError NodeConfig :=
  match attributes.find? (fun p => (manifest_ports.lookup p.1).isNone) with
  | some p =>
    .error (.InvalidPort p.1 node_name (manifest_ports.map Prod.fst))
  | none =>
    let cfg := attributes.foldl (attrStep manifest_ports) cfg
    let cfg := manifest_ports.foldl defaultStep cfg
    .ok cfg

lemma lookup_cons_ne {β : Type} (k k' : String) (v : β)
    (m : List (String × β)) (h : k' ≠ k) :
    ((k', v) :: m).lookup k = m.lookup k := by
  have hb : (k == k') = false := by
    simp [Ne.symm h]
  simp [List.lookup, hb]

lemma add_port_lookup_ne (cfg : NodeConfig) (d : PortDirection)
    (n v k : String) (h : n ≠ k) :
    ((cfg.add_port d n v).input_ports.lookup k =
      cfg.input_ports.lookup k) ∧
    ((cfg.add_port d n v).output_ports.lookup k =
      cfg.output_ports.lookup k) := by
  cases d <;> simp [NodeConfig.add_port, lookup_cons_ne _ _ _ _ h]

lemma attrStep_lookup_ne (mp : List (String × PortInfo)) (cfg : NodeConfig)
    (p : String × String) (k : String) (h : p.1 ≠ k) :
    ((attrStep mp cfg p).input_ports.lookup k = cfg.input_ports.lookup k) ∧
    ((attrStep mp cfg p).output_ports.lookup k =
      cfg.output_ports.lookup k) := by
  unfold attrStep
  cases mp.lookup p.1 with
  | none => exact ⟨rfl, rfl⟩
  | some port => exact add_port_lookup_ne cfg port.direction p.1 p.2 k h

lemma defaultStep_lookup_ne (cfg : NodeConfig) (q : String × PortInfo)
    (k : String) (h : q.1 ≠ k) :
    ((defaultStep cfg q).input_ports.lookup k = cfg.input_ports.lookup k) ∧
    ((defaultStep cfg q).output_ports.lookup k =
      cfg.output_ports.lookup k) := by
  unfold defaultStep
  split
  · exact add_port_lookup_ne cfg .input q.1 _ k h
  · exact ⟨rfl, rfl⟩

lemma has_port_congr (cfg cfg' : NodeConfig) (d : PortDirection) (k : String)
    (hin : cfg'.input_ports.lookup k = cfg.input_ports.lookup k)
    (hout : cfg'.output_ports.lookup k = cfg.output_ports.lookup k) :
    cfg'.has_port d k = cfg.has_port d k := by
  cases d <;> simp [NodeConfig.has_port, hin, hout]

lemma foldl_attrStep_lookup_none (mp : List (String × PortInfo)) :
    ∀ (attrs : List (String × String)) (cfg : NodeConfig) (k : String),
      (∀ p ∈ attrs, p.1 ≠ k) →
      ((attrs.foldl (attrStep mp) cfg).input_ports.lookup k =
        cfg.input_ports.lookup k) ∧
      ((attrs.foldl (attrStep mp) cfg).output_ports.lookup k =
        cfg.output_ports.lookup k) := by
  intro attrs
  induction attrs with
  | nil => intro cfg k _; exact ⟨rfl, rfl⟩
  | cons p attrs ih =>
    intro cfg k h
    have h1 := attrStep_lookup_ne mp cfg p k (h p (by simp))
    have h2 := ih (attrStep mp cfg p) k (fun q hq => h q (by simp [hq]))
    exact ⟨h2.1.trans h1.1, h2.2.trans h1.2⟩

lemma foldl_defaultStep_lookup_ne :
    ∀ (ports : List (String × PortInfo)) (cfg : NodeConfig) (k : String),
      (∀ q ∈ ports, q.1 ≠ k) →
      ((ports.foldl defaultStep cfg).input_ports.lookup k =
        cfg.input_ports.lookup k) ∧
      ((ports.foldl defaultStep cfg).output_ports.lookup k =
        cfg.output_ports.lookup k) := by
  intro ports
  induction ports with
  | nil => intro cfg k _; exact ⟨rfl, rfl⟩
  | cons q ports ih =>
    intro cfg k h
    have h1 := defaultStep_lookup_ne cfg q k (h q (by simp))
    have h2 := ih (defaultStep cfg q) k (fun r hr => h r (by simp [hr]))
    exact ⟨h2.1.trans h1.1, h2.2.trans h1.2⟩

lemma forall_ne_of_lookup_none {β : Type} :
    ∀ (m : List (String × β)) (k : String),
      m.lookup k = none → ∀ p ∈ m, p.1 ≠ k := by
  intro m k h p hp
  induction m with
  | nil => simp at hp
  | cons q m ih =>
    cases q with
    | mk a b =>
      simp only [List.lookup] at h
      rcases List.mem_cons.mp hp with rfl | hp'
      · intro hc
        subst hc
        simp at h
      · cases hka : (k == a) with
        | true => rw [hka] at h; simp at h
        | false => rw [hka] at h; exact ih h hp'

lemma foldl_defaultStep_injects :
    ∀ (ports : List (String × PortInfo)) (cfg : NodeConfig) (k : String)
      (info : PortInfo) (d : String),
      (ports.map Prod.fst).Nodup →
      (k, info) ∈ ports →
      info.direction ≠ .output →
      cfg.has_port info.direction k = false →
      info.default_value = some d →
      (ports.foldl defaultStep cfg).input_ports.lookup k = some d := by
  intro ports
  induction ports with
  | nil => intro _ _ _ _ _ hmem; simp at hmem
  | cons q ports ih =>
    intro cfg k info d hnodup hmem hdir hhas hdef
    rcases List.mem_cons.mp hmem with heq | hmem'
    · subst heq
      simp only [List.foldl_cons]
      have hstep : (defaultStep cfg (k, info)).input_ports.lookup k =
          some d := by
        unfold defaultStep
        rw [if_pos ⟨hdir, hhas, by simp [hdef]⟩]
        cases hd : info.direction <;>
          simp [NodeConfig.add_port, hdef, List.lookup]
      have hk : ∀ r ∈ ports, r.1 ≠ k := by
        intro r hr hc
        exact (List.nodup_cons.mp hnodup).1 (List.mem_map.mpr ⟨r, hr, hc⟩)
      exact ((foldl_defaultStep_lookup_ne ports (defaultStep cfg (k, info))
        k hk).1).trans hstep
    · have hne : q.1 ≠ k := by
        intro hc
        exact (List.nodup_cons.mp hnodup).1
          (List.mem_map.mpr ⟨(k, info), hmem', hc.symm⟩)
      have hpres := defaultStep_lookup_ne cfg q k hne
      simp only [List.foldl_cons]
      exact ih (defaultStep cfg q) k info d
        (List.nodup_cons.mp hnodup).2 hmem' hdir
        ((has_port_congr cfg _ info.direction k hpres.1 hpres.2).trans hhas)
        hdef

/-- C6: after a node is constructed from XML, every manifest port whose
direction is not Output, which was not supplied as an XML attribute, and
which has a default value, has its default injected into the config as an
Input port entry; and a supplied attribute whose name is not in the
manifest's port list is rejected with `InvalidPort`. -/
theorem add_ports_defaults_and_invalid_port :
    (∀ (cfg : NodeConfig) (node_name : String)
        (attributes : List (String × String))
        (manifest_ports : List (String × PortInfo)),
      (∃ p ∈ attributes, (manifest_ports.lookup p.1).isNone) →
      ∃ p ks, add_ports_to_node cfg node_name attributes manifest_ports =
        .error (.InvalidPort p node_name ks)) ∧
    (∀ (node_name : String) (attributes : List (String × String))
        (manifest_ports : List (String × PortInfo)),
      (manifest_ports.map Prod.fst).Nodup →
      (∀ p ∈ attributes, (manifest_ports.lookup p.1).isSome) →
      ∃ cfg', add_ports_to_node ⟨[], []⟩ node_name attributes
          manifest_ports = .ok cfg' ∧
        ∀ q ∈ manifest_ports, q.2.direction ≠ .output →
          attributes.lookup q.1 = none →
          ∀ d, q.2.default_value = some d →
            cfg'.input_ports.lookup q.1 = some d) := by
  constructor
  · intro cfg node_name attributes manifest_ports hex
    have hfind : (attributes.find?
        (fun p => (manifest_ports.lookup p.1).isNone)).isSome := by
      rw [List.find?_isSome]
      obtain ⟨p, hp, hnone⟩ := hex
      exact ⟨p, hp, by simpa using hnone⟩
    obtain ⟨p, hp⟩ := Option.isSome_iff_exists.mp hfind
    refine ⟨p.1, manifest_ports.map Prod.fst, ?_⟩
    unfold add_ports_to_node
    rw [hp]
  · intro node_name attributes manifest_ports hnodup hall
    have hfind : attributes.find?
        (fun p => (manifest_ports.lookup p.1).isNone) = none := by
      rw [List.find?_eq_none]
      intro p hp
      simpa using hall p hp
    refine ⟨_, by unfold add_ports_to_node; rw [hfind], ?_⟩
    intro q hq hdir hnot d hdef
    have hattr : ∀ p ∈ attributes, p.1 ≠ q.1 :=
      forall_ne_of_lookup_none attributes q.1 hnot
    have h0 := foldl_attrStep_lookup_none manifest_ports attributes
      ⟨[], []⟩ q.1 hattr
    have hhas : (attributes.foldl (attrStep manifest_ports)
        ⟨[], []⟩).has_port q.2.direction q.1 = false := by
      cases q.2.direction <;>
        simp [NodeConfig.has_port, h0.1, h0.2, List.lookup]
    exact foldl_defaultStep_injects manifest_ports _ q.1 q.2 d hnodup
      (by simpa using hq) hdir hhas hdef

/-- Witness for C6's theorem: an attribute `zz` absent from an empty
manifest is rejected with `InvalidPort`; and for a manifest with input port
`a` (default `5`), output port `b` (default `x`) and input port `c` (no
default), supplying only `c`, the default of `a` is injected as an Input
entry. -/
theorem add_ports_defaults_and_invalid_port_witness :
    (∃ p ks, add_ports_to_node ⟨[], []⟩ "Node" [("zz", "1")] [] =
      .error (.InvalidPort p "Node" ks)) ∧
    (∃ cfg', add_ports_to_node ⟨[], []⟩ "Node" [("c", "7")]
        [("a", ⟨.input, some "5"⟩), ("b", ⟨.output, some "x"⟩),
          ("c", ⟨.input, none⟩)] = .ok cfg' ∧
      ∀ q ∈ [("a", PortInfo.mk .input (some "5")),
          ("b", PortInfo.mk .output (some "x")),
          ("c", PortInfo.mk .input none)],
        q.2.direction ≠ .output →
        [("c", "7")].lookup q.1 = none →
        ∀ d, q.2.default_value = some d →
          cfg'.input_ports.lookup q.1 = some d) := by
  constructor
  · exact add_ports_defaults_and_invalid_port.1 ⟨[], []⟩ "Node"
      [("zz", "1")] [] ⟨("zz", "1"), by simp, by decide⟩
  · exact add_ports_defaults_and_invalid_port.2 "Node" [("c", "7")]
      [("a", ⟨.input, some "5"⟩), ("b", ⟨.output, some "x"⟩),
        ("c", ⟨.input, none⟩)] (by decide) (by decide)

/-! ### Blackboards and `<SubTree>` instantiation
(`Factory::build_child`, tree.rs lines 605-656)

The `Blackboard` type lives outside the provided sources (`blackboard.rs`);
its operations are modelled from the spec (§3.6 and §4.1). -/

/-- A hierarchical blackboard (spec §3.6): entries, the child→parent remap
table, the auto-remap flag, and the optional parent link. -/
inductive BB where
  | mk (entries : List (String × String)) (remap : List (String × String))
      (auto_remap : Bool) (parent : Option BB)

def BB.entries : BB → List (String × String)
  | .mk e _ _ _ => e

def BB.remap : BB → List (String × String)
  | .mk _ r _ _ => r

def BB.auto_remap : BB → Bool
  | .mk _ _ a _ => a

def BB.parent : BB → Option BB
  | .mk _ _ _ p => p

/-- Modelled from the spec (§3.6): a key beginning with `@` addresses the
root (global) blackboard. -/
def is_bb_global (k : String) : Bool :=
  k.data.head? = some '@'

/-- Modelled from the spec (§4.1 `set`, `@` case): write to the root
ancestor. -/
def BB.set_root : BB → String → String → BB
  | .mk e r a none, k, v => .mk ((k, v) :: e) r a none
  | .mk e r a (some q), k, v => .mk e r a (some (q.set_root k v))

/-- Modelled from the spec (§4.1 `set(key, value)`): if `key` begins with
`@`, write to the root ancestor under the stripped key; else if `key` is in
the remap table, resolve and write upward; else store locally (also when a
remapped key has no parent to resolve into). -/
def BB.set : BB → String → String → BB
  | .mk e r a p, k, v =>
    if is_bb_global k then
      (BB.mk e r a p).set_root (k.drop 1) v
    else
      match r.lookup k with
      | some pk =>
        match p with
        | some q => .mk e r a (some (q.set pk v))
        | none => .mk ((k, v) :: e) r a none
      | none => .mk ((k, v) :: e) r a p

/-- Modelled from the spec (§4.1 `with_parent`): a new child blackboard with
the given parent, empty entries and remap table, auto-remap off. -/
def BB.with_parent (parent : BB) : BB :=
  .mk [] [] false (some parent)

/-- Modelled from the spec (§4.1 `enable_auto_remapping`). -/
def BB.enable_auto_remapping : BB → Bool → BB
  | .mk e r _ p, b => .mk e r b p

/-- Modelled from the spec (§4.1 `add_subtree_remapping(child, parent)`):
record that `internal`, accessed on this blackboard, refers to `external`
on its parent. -/
def BB.add_subtree_remapping : BB → String → String → BB
  | .mk e r a p, internal, external => .mk e ((internal, external) :: r) a p

/-- Modelled from the spec: `FromString` for `bool` parses the strings
`true` and `false`; anything else is a parse error. -/
def bool_from_string (s : String) : Except ParseError Bool :=
  if s = "true" then .ok true
  else if s = "false" then .ok false
  else .error (.ParseStringError s)

/-- Modelled from the spec (§4.4 / BT.CPP convention the engine mimics): a
port-binding attribute name starts with an alphabetic character, and the
special attribute names `name` and `ID` are not port names. -/
def is_allowed_port_name (s : String) : Bool :=
  match s.data with
  | [] => false
  | c :: _ => c.isAlpha && s ≠ "name" && s ≠ "ID"

/-- Modelled from the spec (§6.1): a value of the form `\x7bkey\x7d` is a
blackboard pointer; `strip_bb_pointer` returns the inner `key`. -/
def strip_bb_pointer (v : String) : Option String :=
  if v.startsWith "\x7b" && v.endsWith "\x7d" then
    some ((v.drop 1).dropRight 1)
  else
    none

/-- One attribute of the `SubTree` attribute loop of `Factory::build_child`
(tree.rs, lines 611-629): `_autoremap` sets the child's auto-remap flag
(parsing its value as a bool); a name that is not an allowed port name is
skipped; a blackboard-pointer value records a subtree remapping; any other
value is written into the child blackboard as a literal string. -/
def subtree_step (cb : BB) (p : String × String) : Except ParseError BB :=
  if p.1 = "_autoremap" then
    match bool_from_string p.2 with
    | .ok b => .ok (cb.enable_auto_remapping b)
    | .error e => .error e
  else if is_allowed_port_name p.1 = false then
    .ok cb
  else
    match strip_bb_pointer p.2 with
    | some port_name => .ok (cb.add_subtree_remapping p.1 port_name)
    | none => .ok (cb.set p.1 p.2)

/-- The `SubTree` arm of `Factory::build_child` (tree.rs, lines 606-656), up
to the recursive instantiation of the referenced tree: create a child
blackboard with the current blackboard as parent, process the attributes,
then require the `ID` attribute (returning it with the child blackboard). -/
def subtree_build (attributes : List (String × String)) (blackboard : BB) :
    Except ParseError (BB × String) := do
  let child ← attributes.foldlM subtree_step (BB.with_parent blackboard)
  match attributes.lookup "ID" with
  | some id => .ok (child, id)
  | none => .error (.MissingAttribute "ID")

lemma not_global_of_allowed (s : String)
    (h : is_allowed_port_name s = true) : is_bb_global s = false := by
  unfold is_allowed_port_name at h
  unfold is_bb_global
  cases hd : s.data with
  | nil => rw [hd] at h; simp at h
  | cons c cs =>
    rw [hd] at h
    simp only [Bool.and_eq_true] at h
    have hc : c ≠ '@' := by
      intro hc
      rw [hc] at h
      exact absurd h.1.1 (by decide)
    simp [hd, hc]

lemma BB.set_local (e r : List (String × String)) (a : Bool)
    (p : Option BB) (k v : String) (hg : is_bb_global k = false)
    (hr : r.lookup k = none) :
    BB.set (.mk e r a p) k v = .mk ((k, v) :: e) r a p := by
  unfold BB.set
  rw [if_neg (by simp [hg]), hr]

lemma subtree_step_spec (cb : BB) (p : String × String)
    (hv : p.1 = "_autoremap" → p.2 = "true" ∨ p.2 = "false")
    (hremap : cb.remap.lookup p.1 = none) :
    ∃ cb', subtree_step cb p = .ok cb' ∧
      cb'.parent = cb.parent ∧
      cb'.auto_remap = (if p.1 = "_autoremap" then decide (p.2 = "true")
        else cb.auto_remap) ∧
      (∀ a, a ≠ p.1 → cb'.remap.lookup a = cb.remap.lookup a ∧
        cb'.entries.lookup a = cb.entries.lookup a) ∧
      (is_allowed_port_name p.1 = true →
        (∀ k, strip_bb_pointer p.2 = some k →
          cb'.remap.lookup p.1 = some k) ∧
        (strip_bb_pointer p.2 = none →
          cb'.entries.lookup p.1 = some p.2)) := by
  cases cb with
  | mk e r a par =>
    by_cases hp : p.1 = "_autoremap"
    · rcases hv hp with h2 | h2
      · refine ⟨BB.mk e r true par, ?_, rfl, ?_, fun x hx => ⟨rfl, rfl⟩, ?_⟩
        · unfold subtree_step
          rw [if_pos hp, h2]
          rfl
        · simp [BB.auto_remap, hp, h2]
        · intro hall
          rw [hp] at hall
          exact absurd hall (by decide)
      · refine ⟨BB.mk e r false par, ?_, rfl, ?_, fun x hx => ⟨rfl, rfl⟩, ?_⟩
        · unfold subtree_step
          rw [if_pos hp, h2]
          rfl
        · simp [BB.auto_remap, hp, h2]
        · intro hall
          rw [hp] at hall
          exact absurd hall (by decide)
    · by_cases hall : is_allowed_port_name p.1 = true
      · cases hstrip : strip_bb_pointer p.2 with
        | some k =>
          refine ⟨BB.mk e ((p.1, k) :: r) a par, ?_, rfl, ?_, ?_, ?_⟩
          · unfold subtree_step
            rw [if_neg hp, if_neg (by simp [hall]), hstrip]
            rfl
          · simp [BB.auto_remap, hp]
          · intro x hx
            exact ⟨lookup_cons_ne x p.1 k r (Ne.symm hx), rfl⟩
          · intro _
            constructor
            · intro k' hk'
              cases hk'
              simp [BB.remap, List.lookup]
            · intro hnone
              exact Option.noConfusion hnone
        | none =>
          refine ⟨BB.mk ((p.1, p.2) :: e) r a par, ?_, rfl, ?_, ?_, ?_⟩
          · unfold subtree_step
            rw [if_neg hp, if_neg (by simp [hall]), hstrip]
            rw [BB.set_local e r a par p.1 p.2
              (not_global_of_allowed p.1 hall) (by simpa using hremap)]
          · simp [BB.auto_remap, hp]
          · intro x hx
            exact ⟨rfl, lookup_cons_ne x p.1 p.2 e (Ne.symm hx)⟩
          · intro _
            refine ⟨?_, ?_⟩
            · intro k' hk'
              exact Option.noConfusion hk'
            · intro _
              simp [BB.entries, List.lookup]
      · refine ⟨BB.mk e r a par, ?_, rfl, by simp [hp],
          fun x hx => ⟨rfl, rfl⟩, fun h => absurd h hall⟩
        unfold subtree_step
        rw [if_neg hp, if_pos (by simpa using hall)]

lemma subtree_fold_spec :
    ∀ (attrs : List (String × String)) (cb : BB),
      (attrs.map Prod.fst).Nodup →
      (∀ v, ("_autoremap", v) ∈ attrs → v = "true" ∨ v = "false") →
      (∀ p ∈ attrs, cb.remap.lookup p.1 = none) →
      ∃ cb', attrs.foldlM subtree_step cb = .ok cb' ∧
        cb'.parent = cb.parent ∧
        ((∀ v, ("_autoremap", v) ∉ attrs) →
          cb'.auto_remap = cb.auto_remap) ∧
        (∀ v, ("_autoremap", v) ∈ attrs →
          cb'.auto_remap = decide (v = "true")) ∧
        (∀ x, x ∉ attrs.map Prod.fst →
          cb'.remap.lookup x = cb.remap.lookup x ∧
          cb'.entries.lookup x = cb.entries.lookup x) ∧
        (∀ x v, (x, v) ∈ attrs → is_allowed_port_name x = true →
          (∀ k, strip_bb_pointer v = some k →
            cb'.remap.lookup x = some k) ∧
          (strip_bb_pointer v = none →
            cb'.entries.lookup x = some v)) := by
  intro attrs
  induction attrs with
  | nil =>
    intro cb _ _ _
    exact ⟨cb, rfl, rfl, fun _ => rfl, fun v hv => absurd hv (by simp),
      fun x _ => ⟨rfl, rfl⟩, fun x v hxv => absurd hxv (by simp)⟩
  | cons p attrs ih =>
    intro cb hnodup hv hinv
    have hv0 : p.1 = "_autoremap" → p.2 = "true" ∨ p.2 = "false" := by
      intro h
      exact hv p.2 (by rw [← h]; simp)
    obtain ⟨cb1, hstep, hpar1, hauto1, hpres1, hmain1⟩ :=
      subtree_step_spec cb p hv0 (hinv p (by simp))
    rw [List.map_cons, List.nodup_cons] at hnodup
    obtain ⟨hhead, hnodup'⟩ := hnodup
    have hv' : ∀ v, ("_autoremap", v) ∈ attrs → v = "true" ∨ v = "false" :=
      fun v hvm => hv v (List.mem_cons_of_mem _ hvm)
    have hinv' : ∀ q ∈ attrs, cb1.remap.lookup q.1 = none := by
      intro q hq
      have hne : q.1 ≠ p.1 := by
        intro hc
        exact hhead (hc ▸ List.mem_map.mpr ⟨q, hq, rfl⟩)
      rw [(hpres1 q.1 hne).1]
      exact hinv q (List.mem_cons_of_mem _ hq)
    obtain ⟨cb', hfold, hpar, hautoAbs, hautoPres, hpres, hmain⟩ :=
      ih cb1 hnodup' hv' hinv'
    refine ⟨cb', ?_, hpar.trans hpar1, ?_, ?_, ?_, ?_⟩
    · show List.foldlM subtree_step cb (p :: attrs) = .ok cb'
      rw [List.foldlM_cons, hstep]
      exact hfold
    · intro habs
      have hp1 : p.1 ≠ "_autoremap" := by
        intro h
        exact habs p.2 (by rw [← h]; simp)
      rw [hautoAbs (fun v hvm => habs v (List.mem_cons_of_mem _ hvm)),
        hauto1, if_neg hp1]
    · intro v hvm
      rcases List.mem_cons.mp hvm with heq | hvm'
      · have habs' : ∀ v', ("_autoremap", v') ∉ attrs := by
          intro v' hc
          apply hhead
          rw [show p.1 = "_autoremap" from by rw [← heq]]
          exact List.mem_map.mpr ⟨("_autoremap", v'), hc, rfl⟩
        rw [hautoAbs habs', hauto1,
          if_pos (show p.1 = "_autoremap" from by rw [← heq])]
        rw [show p.2 = v from by rw [← heq]]
      · exact hautoPres v hvm'
    · intro x hx
      have hx1 : x ∉ attrs.map Prod.fst := fun hc => hx (by simp [hc])
      have hxp : x ≠ p.1 := fun hc => hx (by simp [hc])
      obtain ⟨h1, h2⟩ := hpres x hx1
      obtain ⟨h3, h4⟩ := hpres1 x hxp
      exact ⟨h1.trans h3, h2.trans h4⟩
    · intro x v hxv hallow
      rcases List.mem_cons.mp hxv with heq | hxv'
      · have hpx : p.1 = x := by rw [← heq]
        have hx1 : x ∉ attrs.map Prod.fst := hpx ▸ hhead
        have hm1 := hmain1 (hpx ▸ hallow)
        have hp2 : p.2 = v := by rw [← heq]
        constructor
        · intro k hk
          rw [(hpres x hx1).1, ← hpx]
          exact hm1.1 k (hp2 ▸ hk)
        · intro hnone
          rw [(hpres x hx1).2, ← hpx]
          rw [show (some p.2 : Option String) = some v from by rw [hp2]] at *
          exact hp2 ▸ hm1.2 (hp2 ▸ hnone)
      · exact hmain x v hxv' hallow

/-- C7: building a `<SubTree>` empty tag creates a child blackboard whose
parent is the current blackboard; the `_autoremap` attribute sets the child
blackboard's auto-remap flag; a missing `ID` attribute yields
`MissingAttribute`; every other (port-binding) attribute whose value has the
form `\x7bkey\x7d` records a subtree remapping from the attribute name to
`key`, and one whose value is a literal writes that literal into the child
blackboard under the attribute name. -/
theorem subtree_attribute_processing
    (attrs : List (String × String)) (bb : BB)
    (hnodup : (attrs.map Prod.fst).Nodup)
    (hbool : ∀ v, ("_autoremap", v) ∈ attrs → v = "true" ∨ v = "false") :
    (attrs.lookup "ID" = none →
      subtree_build attrs bb = .error (.MissingAttribute "ID")) ∧
    (∀ id, attrs.lookup "ID" = some id →
      ∃ child, subtree_build attrs bb = .ok (child, id) ∧
        child.parent = some bb ∧
        (∀ v, ("_autoremap", v) ∈ attrs →
          (child.auto_remap = true ↔ v = "true")) ∧
        (∀ a v, (a, v) ∈ attrs → is_allowed_port_name a = true →
          (∀ k, strip_bb_pointer v = some k →
            child.remap.lookup a = some k) ∧
          (strip_bb_pointer v = none →
            child.entries.lookup a = some v))) := by
  obtain ⟨cb', hfold, hpar, _, hautoPres, _, hmain⟩ :=
    subtree_fold_spec attrs (BB.with_parent bb) hnodup hbool
      (fun p _ => rfl)
  have hbuild : subtree_build attrs bb =
      (match attrs.lookup "ID" with
        | some id => .ok (cb', id)
        | none =>
          .error (.MissingAttribute "ID") : Except ParseError (BB × String)) := by
    unfold subtree_build
    rw [hfold]
    rfl
  constructor
  · intro hid
    rw [hbuild, hid]
  · intro id hid
    refine ⟨cb', ?_, hpar, ?_, hmain⟩
    · rw [hbuild, hid]
    · intro v hvm
      rw [hautoPres v hvm]
      simp

/-- Witness for C7's theorem at a concrete `<SubTree>` tag with attributes
`ID="sub"`, `_autoremap="true"`, `target="\x7bgoal\x7d"` (a blackboard
pointer) and `greeting="hello"` (a literal). -/
theorem subtree_attribute_processing_witness :
    ∃ child, subtree_build
        [("ID", "sub"), ("_autoremap", "true"), ("target", "\x7bgoal\x7d"),
          ("greeting", "hello")] (BB.mk [] [] false none) =
        .ok (child, "sub") ∧
      child.parent = some (BB.mk [] [] false none) ∧
      (∀ v, ("_autoremap", v) ∈
          [("ID", "sub"), ("_autoremap", "true"),
            ("target", "\x7bgoal\x7d"), ("greeting", "hello")] →
        (child.auto_remap = true ↔ v = "true")) ∧
      (∀ a v, (a, v) ∈
          [("ID", "sub"), ("_autoremap", "true"),
            ("target", "\x7bgoal\x7d"), ("greeting", "hello")] →
        is_allowed_port_name a = true →
        (∀ k, strip_bb_pointer v = some k →
          child.remap.lookup a = some k) ∧
        (strip_bb_pointer v = none →
          child.entries.lookup a = some v)) := by
  exact (subtree_attribute_processing
    [("ID", "sub"), ("_autoremap", "true"), ("target", "\x7bgoal\x7d"),
      ("greeting", "hello")] (BB.mk [] [] false none)
    (by decide) (by intro v hv; simp at hv; exact Or.inl hv)).2
    "sub" (by decide)

/-! ### The `visit_nodes` iterator (`NodeIter`, tree.rs lines 130-179)

A constructed tree is a node with a name and a list of children.  The
iterator keeps two parallel stacks `nodes` and `idxs` (the source uses two
`Vec`s with the top at the end; here a single list of pairs with the top at
the head).  An index of `-1` marks a node not yet yielded; an index `i ≥ 0`
counts how many of its children have been entered. -/

/-- A materialised tree node: name and children, as traversed by
`NodeIter` (`TreeNode::name()` and `TreeNode::children()`; a leaf has no
children). -/
inductive RTree where
  | node (name : String) (children : List RTree)

def RTree.name : RTree → String
  | .node n _ => n

def RTree.children : RTree → List RTree
  | .node _ cs => cs

mutual

/-- Pre-order of a tree: the node before its children, children in document
order (the specification of the traversal). -/
def preorder : RTree → List RTree
  | .node n cs => .node n cs :: preorderL cs

/-- Pre-order of a forest, in order. -/
def preorderL : List RTree → List RTree
  | [] => []
  | c :: cs => preorder c ++ preorderL cs

end

/-- Number of nodes of a tree. -/
def sizeT (t : RTree) : Nat :=
  (preorder t).length

/-- Number of nodes of a forest. -/
def sizeL (cs : List RTree) : Nat :=
  (preorderL cs).length

lemma sizeT_node (n : String) (cs : List RTree) :
    sizeT (.node n cs) = 1 + sizeL cs := by
  simp [sizeT, sizeL, preorder, Nat.add_comm]

lemma sizeT_children (t : RTree) : sizeT t = 1 + sizeL t.children := by
  cases t with
  | node n cs => exact sizeT_node n cs

lemma sizeL_cons (c : RTree) (cs : List RTree) :
    sizeL (c :: cs) = sizeT c + sizeL cs := by
  simp [sizeT, sizeL, preorderL]

lemma one_le_sizeT (t : RTree) : 1 ≤ sizeT t := by
  rw [sizeT_children t]
  omega

/-- Remaining loop iterations contributed by one stack entry: an entry not
yet yielded costs its whole subtree, an entry at child index `i` costs its
remaining children. -/
def entryMeasure : RTree × Int → Nat
  | (t, i) =>
    if i < 0 then 3 * sizeT t - 1
    else 1 + 3 * sizeL (t.children.drop i.toNat)

/-- Remaining loop iterations of the whole stack. -/
def stackMeasure (s : List (RTree × Int)) : Nat :=
  (s.map entryMeasure).sum

/-- `NodeIter::next` (tree.rs, lines 142-178), iterated to exhaustion: the
full sequence of nodes the iterator yields from a given stack.  Each
recursive call is one iteration of the source's loop: a negative index
yields the node and sets the index to 0; an exhausted (or absent) child
list pops the entry; otherwise the indexed child is pushed with index `-1`
and the parent's index is incremented. -/
def runIter : List (RTree × Int) → List RTree
  | [] => []
  | (t, i) :: rest =>
    if i < 0 then
      t :: runIter ((t, 0) :: rest)
    else if h : t.children.length ≤ i.toNat then
      runIter rest
    else
      runIter ((t.children.get ⟨i.toNat, Nat.lt_of_not_le h⟩, -1) ::
        (t, i + 1) :: rest)
termination_by s => stackMeasure s
decreasing_by
  · have h1 := one_le_sizeT t
    have h2 := sizeT_children t
    simp only [stackMeasure, List.map_cons, List.sum_cons, entryMeasure]
    rw [if_neg (show ¬ ((0 : Int) < 0) by omega),
      if_pos (show i < 0 by assumption)]
    simp only [Int.toNat_zero, List.drop_zero]
    omega
  · have h1 := one_le_sizeT t
    simp only [stackMeasure, List.map_cons, List.sum_cons, entryMeasure]
    split <;> omega
  · have hlt := Nat.lt_of_not_le h
    have h1 := one_le_sizeT (t.children.get ⟨i.toNat, hlt⟩)
    have hdrop : t.children.drop i.toNat =
        t.children.get ⟨i.toNat, hlt⟩ :: t.children.drop (i.toNat + 1) := by
      rw [List.drop_eq_getElem_cons hlt]
      rfl
    have hsz : sizeL (t.children.drop i.toNat) =
        sizeT (t.children.get ⟨i.toNat, hlt⟩) +
          sizeL (t.children.drop (i.toNat + 1)) := by
      rw [hdrop, sizeL_cons]
    have hnn : ¬ (i < 0) := by assumption
    have htn : (i + 1).toNat = i.toNat + 1 := by omega
    simp only [stackMeasure, List.map_cons, List.sum_cons, entryMeasure]
    rw [if_pos (show (-1 : Int) < 0 by omega),
      if_neg (show ¬ (i + 1 < 0) by omega), if_neg hnn, htn]
    omega
/-- What one stack entry still contributes to the iteration: a node not yet
yielded contributes its whole subtree in pre-order, an entry at child index
`i` contributes its remaining children's subtrees. -/
def entrySpec : RTree × Int → List RTree
  | (t, i) =>
    if i < 0 then preorder t else preorderL (t.children.drop i.toNat)

lemma preorder_eq_cons (t : RTree) :
    preorder t = t :: preorderL t.children := by
  cases t with
  | node n cs => rfl

lemma runIter_spec (s : List (RTree × Int)) :
    runIter s = (s.map entrySpec).join := by
  induction s using runIter.induct with
  | case1 => rw [runIter]; rfl
  | case2 t i rest hneg ih =>
    rw [runIter, if_pos hneg, ih]
    simp only [List.map_cons, List.join_cons, entrySpec]
    rw [if_pos hneg, if_neg (show ¬ ((0 : Int) < 0) by omega),
      preorder_eq_cons t]
    simp
  | case3 t i rest hneg h ih =>
    rw [runIter, if_neg hneg, dif_pos h, ih]
    simp only [List.map_cons, List.join_cons, entrySpec]
    rw [if_neg hneg, List.drop_eq_nil_of_le h]
    simp [preorderL]
  | case4 t i rest hneg h ih =>
    have hlt := Nat.lt_of_not_le h
    rw [runIter, if_neg hneg, dif_neg h, ih]
    simp only [List.map_cons, List.join_cons, entrySpec]
    rw [if_pos (show (-1 : Int) < 0 by omega),
      if_neg (show ¬ (i + 1 < 0) by omega), if_neg hneg,
      (show (i + 1).toNat = i.toNat + 1 by omega)]
    have hdrop : t.children.drop i.toNat =
        t.children.get ⟨i.toNat, hlt⟩ :: t.children.drop (i.toNat + 1) := by
      rw [List.drop_eq_getElem_cons hlt]
      rfl
    rw [hdrop]
    simp [preorderL]

/-- The tree of the `visitor` test
(`<Sequence><Sequence><Inverter><StatusNode/></Inverter><StatusNode/></Sequence></Sequence>`,
tests/tree.rs lines 8-45). -/
def visitorTree : RTree :=
  .node "Sequence"
    [.node "Sequence"
      [.node "Inverter" [.node "StatusNode" []],
       .node "StatusNode" []]]

/-- `AsyncTree::visit_nodes` (tree.rs, line 125): a fresh `NodeIter` on the
root (stack `[(root, -1)]`), iterated to exhaustion. -/
def visit_nodes (t : RTree) : List RTree :=
  runIter [(t, -1)]

/-- C8: `visit_nodes` yields every node of the tree exactly once, in
pre-order (each node before its children, children in document order); in
particular, on the visitor test tree it yields the node names
`[Sequence, Sequence, Inverter, StatusNode, StatusNode]`. -/
theorem visit_nodes_preorder :
    (∀ t : RTree, visit_nodes t = preorder t) ∧
    (visit_nodes visitorTree).map RTree.name =
      ["Sequence", "Sequence", "Inverter", "StatusNode", "StatusNode"] := by
  have hmain : ∀ t : RTree, visit_nodes t = preorder t := by
    intro t
    rw [visit_nodes, runIter_spec]
    simp [entrySpec]
  refine ⟨hmain, ?_⟩
  rw [hmain visitorTree]
  simp [visitorTree, preorder, preorderL, RTree.name]

/-! ### XML registration and main-tree selection
(`Factory::register_bt_from_text`, tree.rs lines 681-822, and
`Factory::create_sync_tree_from_text` / `create_async_tree_from_text`,
lines 301-343)

The `quick_xml` reader is an external collaborator; the XML text is
represented by the list of events it would produce.  Reading past the end
of the list yields `Eof` (modelled by the empty list). -/

/-- The XML event kinds the factory code matches on. -/
inductive XmlEvent where
  | decl
  | start (name : String) (attrs : List (String × String))
  | empty (name : String) (attrs : List (String × String))
  | endTag (name : String)
  | comment
  | text (s : String)
deriving DecidableEq, Repr

/-- Phase 1 of `register_bt_from_text` (tree.rs, lines 691-715): scan for
the `<root>` start tag, capturing its optional `main_tree_to_execute`
attribute.  XML declarations and non-`root` start tags are skipped; any
other event (including end of input) is `MissingRoot`. -/
def find_root : List XmlEvent → Except ParseError (Option String × List XmlEvent)
  | [] => .error .MissingRoot
  | .decl :: rest => find_root rest
  | .start name attrs :: rest =>
    if name = "root" then .ok (attrs.lookup "main_tree_to_execute", rest)
    else find_root rest
  | _ :: _ => .error .MissingRoot

/-- `Reader::read_to_end_into`: skip events until the end tag matching
`name`, tracking the nesting depth of same-name inner elements; `none` if
the input ends first. -/
def skip_to_end (name : String) (depth : Nat) :
    List XmlEvent → Option (List XmlEvent)
  | [] => none
  | .start n _ :: rest =>
    skip_to_end name (if n = name then depth + 1 else depth) rest
  | .endTag n :: rest =>
    if n = name then
      match depth with
      | 0 => some rest
      | d + 1 => skip_to_end name d rest
    else skip_to_end name depth rest
  | _ :: rest => skip_to_end name depth rest

/-- The "try to match the first node and skip past it" loop of
`register_bt_from_text` (tree.rs, lines 752-775): skip comments and other
events; a start tag is skipped to its end and the loop exits; the matching
end tag also exits.  (On `Eof` the source loops forever; no event list an
accepted document produces reaches that case, modelled as
`UnexpectedEof`.) -/
def bt_first_child_loop (btName : String) :
    List XmlEvent → Except ParseError (List XmlEvent)
  | [] => .error .UnexpectedEof
  | .comment :: rest => bt_first_child_loop btName rest
  | .endTag n :: rest =>
    if n = btName then .ok rest
    else .error (.ViolateNodeConstraint "Expected end tag for BehaviorTree")
  | .start n _ :: rest =>
    match skip_to_end n 0 rest with
    | some r => .ok r
    | none => .error (.XMLError "unexpected end of file")
  | _ :: rest => bt_first_child_loop btName rest

/-- The "try to match the end tag" loop of `register_bt_from_text`
(tree.rs, lines 778-799): skip comments; the matching end tag exits; any
other event (including end of input, whose `Eof` event falls to the
catch-all arm) is an error. -/
def bt_end_loop (btName : String) :
    List XmlEvent → Except ParseError (List XmlEvent)
  | [] => .error (.ViolateNodeConstraint
      "BehaviorTree node may only have one child")
  | .comment :: rest => bt_end_loop btName rest
  | .endTag n :: rest =>
    if n = btName then .ok rest
    else .error (.ViolateNodeConstraint "Expected end tag for BehaviorTree")
  | _ :: _ => .error (.ViolateNodeConstraint
      "BehaviorTree node may only have one child")

/-- `tree_roots.insert(id, reader)`: only the registered ids matter here;
re-registering an id overwrites its reader but adds no new id. -/
def insertId (roots : List String) (id : String) : List String :=
  if roots.contains id then roots else roots ++ [id]

lemma skip_to_end_le (name : String) :
    ∀ (evs : List XmlEvent) (depth : Nat) (r : List XmlEvent),
      skip_to_end name depth evs = some r → r.length ≤ evs.length := by
  intro evs
  induction evs with
  | nil => intro depth r h; simp [skip_to_end] at h
  | cons e rest ih =>
    intro depth r h
    cases e with
    | start n attrs =>
      have := ih _ r h
      simp
      omega
    | endTag n =>
      simp only [skip_to_end] at h
      by_cases hn : n = name
      · rw [if_pos hn] at h
        cases depth with
        | zero =>
          cases h
          simp
        | succ d =>
          have := ih d r h
          simp
          omega
      · rw [if_neg hn] at h
        have := ih _ r h
        simp
        omega
    | decl =>
      have := ih _ r h
      simp
      omega
    | empty n attrs =>
      have := ih _ r h
      simp
      omega
    | comment =>
      have := ih _ r h
      simp
      omega
    | text s =>
      have := ih _ r h
      simp
      omega

lemma bt_first_child_loop_le (btName : String) :
    ∀ (evs : List XmlEvent) (r : List XmlEvent),
      bt_first_child_loop btName evs = .ok r → r.length ≤ evs.length := by
  intro evs
  induction evs with
  | nil => intro r h; simp [bt_first_child_loop] at h
  | cons e rest ih =>
    intro r h
    cases e with
    | comment =>
      have := ih r h
      simp
      omega
    | endTag n =>
      rw [bt_first_child_loop] at h
      split at h
      · cases h
        simp
      · cases h
    | start n attrs =>
      rw [bt_first_child_loop] at h
      split at h
      · cases h
        have := skip_to_end_le n rest 0 r (by assumption)
        simp
        omega
      · cases h
    | decl =>
      have := ih r h
      simp
      omega
    | empty n attrs =>
      have := ih r h
      simp
      omega
    | text s =>
      have := ih r h
      simp
      omega

lemma bt_end_loop_le (btName : String) :
    ∀ (evs : List XmlEvent) (r : List XmlEvent),
      bt_end_loop btName evs = .ok r → r.length ≤ evs.length := by
  intro evs
  induction evs with
  | nil => intro r h; simp [bt_end_loop] at h
  | cons e rest ih =>
    intro r h
    cases e with
    | comment =>
      have := ih r h
      simp
      omega
    | endTag n =>
      rw [bt_end_loop] at h
      split at h
      · cases h
        simp
      · cases h
    | decl => cases h
    | empty n attrs => cases h
    | start n attrs => cases h
    | text s => cases h

/-- Phase 2 of `register_bt_from_text` (tree.rs, lines 718-817): register
every `<BehaviorTree ID="…">` (skipping past its body), skip
`<TreeNodesModel>`, reject any other start tag (`ExpectedRoot`); the
`</root>` end tag finishes the registration.  `roots` collects the
registered tree ids. -/
def register_loop (roots : List String) :
    List XmlEvent → Except ParseError (List String)
  | [] => .error (.InternalError
      "Something bad has happened. Please report this.")
  | .start name attrs :: rest =>
    if name = "TreeNodesModel" then
      match hsk : skip_to_end name 0 rest with
      | some r => register_loop roots r
      | none => .error (.XMLError "unexpected end of file")
    else if name ≠ "BehaviorTree" then .error (.ExpectedRoot name)
    else
      match attrs.lookup "ID" with
      | none => .error (.MissingAttribute
          "Found BehaviorTree definition without ID. Cannot continue parsing.")
      | some id =>
        match h1 : bt_first_child_loop name rest with
        | .error e => .error e
        | .ok r1 =>
          match h2 : bt_end_loop name r1 with
          | .error e => .error e
          | .ok r2 => register_loop (insertId roots id) r2
  | .endTag name :: _ =>
    if name ≠ "root" then
      .error (.InternalError
        "A non-root end tag was found. This should not happen. Please report this.")
    else .ok roots
  | .comment :: rest => register_loop roots rest
  | _ :: _ => .error (.InternalError
      "Something bad has happened. Please report this.")
termination_by evs => evs.length
decreasing_by
  · have := skip_to_end_le name rest 0 _ hsk
    simp
    omega
  · have ha := bt_first_child_loop_le name rest r1 h1
    have hb := bt_end_loop_le name r1 r2 h2
    simp
    omega
  · simp

/-- `Factory::register_bt_from_text` (tree.rs, lines 681-822) on a fresh
factory: returns the registered tree ids and the captured
`main_tree_to_execute` attribute. -/
def register_bt_from_text (events : List XmlEvent) :
    Except ParseError (List String × Option String) :=
  match find_root events with
  | .error e => .error e
  | .ok (main_tree_id, rest) =>
    match register_loop [] rest with
    | .error e => .error e
    | .ok roots => .ok (roots, main_tree_id)

/-- The main-tree selection shared by `Factory::create_sync_tree_from_text`
and `create_async_tree_from_text` (tree.rs, lines 301-343): register the
text, then pick the tree id that is passed to `instantiate_*_tree` (the
instantiation itself is not modelled — the returned string is the selected
id).  `none` models the panic on the `unwrap` of `self.main_tree_id` when
no trees registered and no main id was given, and on the `unwrap` of the
first map entry. -/
def create_tree_from_text (events : List XmlEvent) :
    Option (Except ParseError String) :=
  match register_bt_from_text events with
  | .error e => some (.error e)
  | .ok (roots, main_tree_id) =>
    if roots.length > 1 ∧ main_tree_id = none then
      some (.error .NoMainTree)
    else if roots.length = 1 then
      match roots.head? with
      | some id => some (.ok id)
      | none => none
    else
      match main_tree_id with
      | some id => some (.ok id)
      | none => none

/-- C9: for every XML document whose `<root>` element contains zero
`<BehaviorTree>` definitions and no `main_tree_to_execute` attribute — i.e.
registration succeeds with no registered tree ids and no main tree id —
`create_sync_tree_from_text` / `create_async_tree_from_text` panic (the
`unwrap` of `None`, modelled as `none`) instead of returning a `ParseError`
such as `NoMainTree` or `UnknownTree`. -/
theorem create_tree_missing_main_panics (events : List XmlEvent)
    (h : register_bt_from_text events = .ok ([], none)) :
    create_tree_from_text events = none := by
  unfold create_tree_from_text
  rw [h]
  simp

/-- Witness for C9's theorem: the document `<root></root>` registers
nothing and has no main tree id, and tree creation panics on it. -/
theorem create_tree_missing_main_panics_witness :
    register_bt_from_text [.start "root" [], .endTag "root"] =
      .ok ([], none) ∧
    create_tree_from_text [.start "root" [], .endTag "root"] = none := by
  have h : register_bt_from_text [.start "root" [], .endTag "root"] =
      .ok ([], none) := by
    simp [register_bt_from_text, find_root, register_loop, List.lookup]
  exact ⟨h, create_tree_missing_main_panics _ h⟩

/-- C10: whenever exactly one BehaviorTree is registered from the XML text,
`create_sync_tree_from_text` / `create_async_tree_from_text` instantiate
that single registered tree, ignoring `main_tree_to_execute` even when it
names a different (possibly unregistered) tree id: the id handed to
instantiation is the single registered one, whatever the main tree id
captured from the document. -/
theorem create_tree_single_ignores_main (events : List XmlEvent)
    (id : String) (main_tree_id : Option String)
    (h : register_bt_from_text events = .ok ([id], main_tree_id)) :
    create_tree_from_text events = some (.ok id) := by
  unfold create_tree_from_text
  rw [h]
  simp

/-- Witness for C10's theorem: a document defining the single tree `main`
while its `main_tree_to_execute` attribute names the unregistered tree
`other`; creation selects `main`. -/
theorem create_tree_single_ignores_main_witness :
    register_bt_from_text
        [.start "root" [("main_tree_to_execute", "other")],
          .start "BehaviorTree" [("ID", "main")], .start "Sequence" [],
          .endTag "Sequence", .endTag "BehaviorTree", .endTag "root"] =
      .ok (["main"], some "other") ∧
    create_tree_from_text
        [.start "root" [("main_tree_to_execute", "other")],
          .start "BehaviorTree" [("ID", "main")], .start "Sequence" [],
          .endTag "Sequence", .endTag "BehaviorTree", .endTag "root"] =
      some (.ok "main") := by
  have h : register_bt_from_text
      [.start "root" [("main_tree_to_execute", "other")],
        .start "BehaviorTree" [("ID", "main")], .start "Sequence" [],
        .endTag "Sequence", .endTag "BehaviorTree", .endTag "root"] =
      .ok (["main"], some "other") := by
    simp [register_bt_from_text, find_root, register_loop,
      bt_first_child_loop, bt_end_loop, skip_to_end, insertId, List.lookup]
  exact ⟨h, create_tree_single_ignores_main _ "main" (some "other") h⟩

end BtRs
